import Mathlib

/-!
Verification of the MediReminder store and checker (`src/App.tsx`).

The medication store is embedded as pure Lean functions over an explicit
medication list and notification list.  Times of day are minutes since
midnight; calendar dates are the opaque strings produced by
`toLocaleDateString()`.  Persistence (`JSON.stringify` / `JSON.parse` on the
fixed `localStorage` key) is modelled by an executable encoder and parser for
the medication-array documents the application writes.
-/

namespace MediReminder

/-- One scheduled drug entry, mirroring the `Medication` interface of
`src/App.tsx` (lines 5-13).  `time` is kept as the raw `"HH:MM"` string the
form stores; `lastTaken` is the nullable locale date string. -/
structure Medication where
  id : String
  name : String
  dosage : String
  frequency : String
  time : String
  lastTaken : Option String
  missed : Bool
deriving DecidableEq, Repr

/-! ## JavaScript primitives used by the component -/

/-- Model of JavaScript `Number(s)` restricted to the strings that occur here:
the empty string converts to `0`, a string of decimal digits to its value, and
anything else to `NaN`, modelled as `none` (signs, decimals and whitespace are
not needed for `"HH:MM"` components). -/
def jsNumber (cs : List Char) : Option Nat :=
  if cs = [] then some 0
  else if cs.all Char.isDigit then
    some (cs.foldl (fun acc c => acc * 10 + (c.toNat - 48)) 0)
  else none

/-- Characters before the first `':'`, and the remainder after it when a `':'`
exists (models one step of `String.prototype.split(':')`). -/
def takeUntilColon : List Char → List Char × Option (List Char)
  | [] => ([], none)
  | c :: rest =>
    if c = ':' then ([], some rest)
    else
      let (a, b) := takeUntilColon rest
      (c :: a, b)

/-- `hours * 60 + minutes` for `med.time.split(':').map(Number)`
(`src/App.tsx` lines 44-45).  `none` models the `NaN` that arises when the
minutes component is missing or either component is non-numeric; every
comparison against `NaN` is false, so such a medication is never due. -/
def medicationMinutes (time : String) : Option Nat :=
  let (hs, rest) := takeUntilColon time.toList
  match rest with
  | none => none
  | some r =>
    let (ms, _) := takeUntilColon r
    match jsNumber hs, jsNumber ms with
    | some h, some m => some (h * 60 + m)
    | _, _ => none

/-- Helper for substring containment: does `sub` occur at the head of `l`? -/
def startsWithList : List Char → List Char → Bool
  | _, [] => true
  | [], _ :: _ => false
  | a :: as, b :: bs => a == b && startsWithList as bs

/-- Substring containment on character lists. -/
def containsList : List Char → List Char → Bool
  | [], sub => sub.isEmpty
  | l@(_ :: t), sub => startsWithList l sub || containsList t sub

/-- Model of JavaScript `s.includes(sub)`. -/
def strIncludes (s sub : String) : Bool :=
  containsList s.toList sub.toList

/-! ## The reminder store operations -/

/-- The banner text built at `src/App.tsx` line 54. -/
def noteText (med : Medication) : String :=
  "Time to take " ++ med.name ++ " (" ++ med.dosage ++ ")"

/-- The body of the `prevMeds.map` callback of `checkMedications`
(`src/App.tsx` lines 43-69): the updated medication, paired with the banner
text emitted for it, if any. -/
def checkOne (today : String) (currentTime : Nat) (med : Medication) :
    Medication × Option String :=
  let medicationTime := medicationMinutes med.time
  let shouldBeTaken :=
    match medicationTime with
    | some mt => decide (mt ≤ currentTime)
    | none => false
  let takenToday := med.lastTaken == some today
  if shouldBeTaken && !takenToday && !med.missed then
    ({ med with missed := true }, some (noteText med))
  else
    (med, none)

/-- `checkMedications` (`src/App.tsx` lines 38-71) with the wall clock made
explicit: `today` is `new Date().toLocaleDateString()` and `currentTime` is
`now.getHours() * 60 + now.getMinutes()`.  Returns the updated collection and
the banners newly appended to the notification list, in traversal order. -/
def checkMedications (today : String) (currentTime : Nat)
    (meds : List Medication) : List Medication × List String :=
  ((meds.map (checkOne today currentTime)).map Prod.fst,
   (meds.map (checkOne today currentTime)).filterMap Prod.snd)

/-- The error surfaced by the `alert` at `src/App.tsx` line 96. -/
inductive ValidationError where
  | emptyRequiredField
deriving DecidableEq, Repr

/-- `handleAddMedication` (`src/App.tsx` lines 92-115) with `Date.now()` made
explicit as `now`.  JavaScript `!s` on a string is truth of `s === ""`, and
the fresh entry's id is `Date.now().toString()`.  Returns the new collection
together with the validation error, if any (on error the collection is
returned unchanged, as the handler returns before `setMedications`). -/
def handleAddMedication (now : Nat) (name dosage frequency time : String)
    (meds : List Medication) : List Medication × Option ValidationError :=
  if name == "" || dosage == "" then
    (meds, some .emptyRequiredField)
  else
    (meds ++ [⟨toString now, name, dosage, frequency, time, none, false⟩], none)

/-- `handleDeleteMedication` (`src/App.tsx` lines 117-119). -/
def handleDeleteMedication (id : String) (meds : List Medication) :
    List Medication :=
  meds.filter (fun med => !(med.id == id))

/-- The `setMedications` part of `handleTakeMedication`
(`src/App.tsx` lines 121-130), with `today` explicit. -/
def handleTakeMedication (today : String) (id : String)
    (meds : List Medication) : List Medication :=
  meds.map (fun med =>
    if med.id == id then { med with lastTaken := some today, missed := false }
    else med)

/-- The notification-removal part of `handleTakeMedication`
(`src/App.tsx` lines 132-138): look the medication up by id in the collection
and drop every banner whose text contains its name. -/
def removeTakenNotifications (meds : List Medication) (id : String)
    (notes : List String) : List String :=
  match meds.find? (fun med => med.id == id) with
  | some medication => notes.filter (fun note => !(strIncludes note medication.name))
  | none => notes

/-! ## The due-and-unconfirmed predicate of the specification -/

/-- A medication is due and unconfirmed at (`today`, `currentTime`) when its
scheduled minute is at most `currentTime`, it was not taken today, and it is
not already flagged missed. -/
def dueUnconfirmed (today : String) (currentTime : Nat) (med : Medication) :
    Bool :=
  (match medicationMinutes med.time with
   | some mt => decide (mt ≤ currentTime)
   | none => false)
  && !(med.lastTaken == some today) && !med.missed

/-- Flag a medication as missed, leaving every other field unchanged. -/
def setMissed (med : Medication) : Medication :=
  { med with missed := true }

/-! ## Persistence: JSON serialization of the collection

`src/App.tsx` persists with `JSON.stringify(medications)` (line 33) and
reloads with `JSON.parse(saved)` (line 18).  The executable encoder below
reproduces the exact document `JSON.stringify` emits for a medication array
(fixed key order, no whitespace, standard string escaping); the parser models
`JSON.parse` on such medication-array documents, failing (as `JSON.parse`
throws) on anything that is not one.  Lone UTF-16 surrogates, which Lean
strings cannot represent, are outside the model. -/

def lbrace : Char := '\x7b'

def rbrace : Char := '\x7d'

/-- Lowercase hexadecimal digit, as used by `JSON.stringify`'s `\u00XX`
escapes for control characters. -/
def hexDigitChar (n : Nat) : Char :=
  if n < 10 then Char.ofNat (48 + n) else Char.ofNat (87 + n)

/-- Value of one hexadecimal digit accepted by `JSON.parse`. -/
def hexVal (c : Char) : Option Nat :=
  if 48 ≤ c.toNat ∧ c.toNat ≤ 57 then some (c.toNat - 48)
  else if 97 ≤ c.toNat ∧ c.toNat ≤ 102 then some (c.toNat - 87)
  else if 65 ≤ c.toNat ∧ c.toNat ≤ 70 then some (c.toNat - 55)
  else none

/-- How `JSON.stringify` renders one character inside a string literal. -/
def escapeChar (c : Char) : List Char :=
  if c = '"' then ['\\', '"']
  else if c = '\\' then ['\\', '\\']
  else if c = '\x08' then ['\\', 'b']
  else if c = '\t' then ['\\', 't']
  else if c = '\n' then ['\\', 'n']
  else if c = '\x0c' then ['\\', 'f']
  else if c = '\r' then ['\\', 'r']
  else if c.toNat < 32 then
    ['\\', 'u', '0', '0', hexDigitChar (c.toNat / 16), hexDigitChar (c.toNat % 16)]
  else [c]

/-- A JSON string literal for `s`, quotes included. -/
def encodeJsonString (s : String) : List Char :=
  '"' :: ((s.toList.flatMap escapeChar) ++ ['"'])

/-- Prepend a decoded character to a parse result. -/
def consRes (c : Char) :
    Option (List Char × List Char) → Option (List Char × List Char)
  | some (cs, r) => some (c :: cs, r)
  | none => none

/-- Decode a JSON string body up to and including its closing quote,
returning the decoded characters and the unconsumed input. -/
def parseStringBody : List Char → Option (List Char × List Char)
  | [] => none
  | c :: rest =>
    if c = '"' then some ([], rest)
    else if c = '\\' then
      match rest with
      | [] => none
      | e :: rest2 =>
        if e = '"' then consRes '"' (parseStringBody rest2)
        else if e = '\\' then consRes '\\' (parseStringBody rest2)
        else if e = '/' then consRes '/' (parseStringBody rest2)
        else if e = 'b' then consRes '\x08' (parseStringBody rest2)
        else if e = 'f' then consRes '\x0c' (parseStringBody rest2)
        else if e = 'n' then consRes '\n' (parseStringBody rest2)
        else if e = 'r' then consRes '\r' (parseStringBody rest2)
        else if e = 't' then consRes '\t' (parseStringBody rest2)
        else if e = 'u' then
          match rest2 with
          | h1 :: h2 :: h3 :: h4 :: rest3 =>
            match hexVal h1, hexVal h2, hexVal h3, hexVal h4 with
            | some x1, some x2, some x3, some x4 =>
              let n := ((x1 * 16 + x2) * 16 + x3) * 16 + x4
              if 0xD800 ≤ n ∧ n < 0xE000 then none
              else consRes (Char.ofNat n) (parseStringBody rest3)
            | _, _, _, _ => none
          | _ => none
        else none
    else if c.toNat < 32 then none
    else consRes c (parseStringBody rest)

/-- Decode a complete JSON string literal. -/
def parseJsonString : List Char → Option (String × List Char)
  | [] => none
  | c :: rest =>
    if c = '"' then
      match parseStringBody rest with
      | some (cs, r) => some (String.mk cs, r)
      | none => none
    else none

/-- Consume an expected literal character sequence. -/
def expectChars : List Char → List Char → Option (List Char)
  | [], input => some input
  | _ :: _, [] => none
  | p :: ps, c :: cs => if c = p then expectChars ps cs else none

/-- `lastTaken` serializes as `null` or a string literal. -/
def encodeNullableString : Option String → List Char
  | none => "null".toList
  | some s => encodeJsonString s

def parseNullableString (input : List Char) :
    Option (Option String × List Char) :=
  match expectChars "null".toList input with
  | some r => some (none, r)
  | none =>
    match parseJsonString input with
    | some (s, r) => some (some s, r)
    | none => none

def encodeJsonBool : Bool → List Char
  | true => "true".toList
  | false => "false".toList

def parseJsonBool (input : List Char) : Option (Bool × List Char) :=
  match expectChars "true".toList input with
  | some r => some (true, r)
  | none =>
    match expectChars "false".toList input with
    | some r => some (false, r)
    | none => none

/-- One medication object, keys in the insertion order of the object literal
at `src/App.tsx` lines 100-105. -/
def encodeMed (m : Medication) : List Char :=
  "\x7b\"id\":".toList ++ encodeJsonString m.id
    ++ ",\"name\":".toList ++ encodeJsonString m.name
    ++ ",\"dosage\":".toList ++ encodeJsonString m.dosage
    ++ ",\"frequency\":".toList ++ encodeJsonString m.frequency
    ++ ",\"time\":".toList ++ encodeJsonString m.time
    ++ ",\"lastTaken\":".toList ++ encodeNullableString m.lastTaken
    ++ ",\"missed\":".toList ++ encodeJsonBool m.missed
    ++ "\x7d".toList

def parseMed (input : List Char) : Option (Medication × List Char) :=
  match expectChars "\x7b\"id\":".toList input with
  | none => none
  | some r1 =>
  match parseJsonString r1 with
  | none => none
  | some (id, r2) =>
  match expectChars ",\"name\":".toList r2 with
  | none => none
  | some r3 =>
  match parseJsonString r3 with
  | none => none
  | some (name, r4) =>
  match expectChars ",\"dosage\":".toList r4 with
  | none => none
  | some r5 =>
  match parseJsonString r5 with
  | none => none
  | some (dosage, r6) =>
  match expectChars ",\"frequency\":".toList r6 with
  | none => none
  | some r7 =>
  match parseJsonString r7 with
  | none => none
  | some (frequency, r8) =>
  match expectChars ",\"time\":".toList r8 with
  | none => none
  | some r9 =>
  match parseJsonString r9 with
  | none => none
  | some (time, r10) =>
  match expectChars ",\"lastTaken\":".toList r10 with
  | none => none
  | some r11 =>
  match parseNullableString r11 with
  | none => none
  | some (lastTaken, r12) =>
  match expectChars ",\"missed\":".toList r12 with
  | none => none
  | some r13 =>
  match parseJsonBool r13 with
  | none => none
  | some (missed, r14) =>
  match expectChars "\x7d".toList r14 with
  | none => none
  | some r15 =>
    some (⟨id, name, dosage, frequency, time, lastTaken, missed⟩, r15)

/-- The document after an array's first element: `,elem` repeated, then `]`. -/
def encodeMedsTail : List Medication → List Char
  | [] => [']']
  | m :: ms => ',' :: (encodeMed m ++ encodeMedsTail ms)

/-- The array document `JSON.stringify` produces for the collection. -/
def encodeMeds : List Medication → List Char
  | [] => "[]".toList
  | m :: ms => '[' :: (encodeMed m ++ encodeMedsTail ms)

/-- Remaining array elements; the fuel bounds the number of elements and is
initialized to the input length, which always suffices. -/
def parseMedsTail : Nat → List Char → Option (List Medication × List Char)
  | _, ']' :: rest => some ([], rest)
  | Nat.succ fuel, ',' :: rest =>
    (match parseMed rest with
     | some (m, r) =>
       match parseMedsTail fuel r with
       | some (ms, r2) => some (m :: ms, r2)
       | none => none
     | none => none)
  | _, _ => none

def parseMeds (input : List Char) : Option (List Medication × List Char) :=
  match expectChars ['['] input with
  | none => none
  | some rest =>
    match expectChars [']'] rest with
    | some r => some ([], r)
    | none =>
      match parseMed rest with
      | some (m, r) =>
        (match parseMedsTail r.length r with
         | some (ms, r2) => some (m :: ms, r2)
         | none => none)
      | none => none

/-- `JSON.stringify(medications)`, the value written to the fixed
`localStorage` key (`src/App.tsx` line 33). -/
def serializeMedications (meds : List Medication) : String :=
  String.mk (encodeMeds meds)

/-- `JSON.parse` applied to a saved medication document; `none` models the
`SyntaxError` thrown on unparsable content. -/
def deserializeMedications (s : String) : Option (List Medication) :=
  match parseMeds s.toList with
  | some (meds, []) => some meds
  | _ => none

/-- The `useState` initializer `saved ? JSON.parse(saved) : []`
(`src/App.tsx` lines 16-19).  A missing key (`null`) and the falsy empty
string yield the empty collection; otherwise `JSON.parse` runs with no
`try`/`catch`, so a parse failure is an uncaught exception, modelled as
`Except.error`. -/
def loadMedications (saved : Option String) :
    Except String (List Medication) :=
  match saved with
  | none => Except.ok []
  | some s =>
    if s == "" then Except.ok []
    else
      match deserializeMedications s with
      | some meds => Except.ok meds
      | none => Except.error "SyntaxError: JSON.parse"

/-! ## Operation sequences over the store -/

/-- The store mutations reachable from the UI, with every wall-clock read
made explicit (`now` is the `Date.now()` of the add handler, `t` the
minutes-since-midnight of a checker tick; the calendar day is supplied when a
sequence is run). -/
inductive Op where
  | add (now : Nat) (name dosage frequency time : String)
  | delete (id : String)
  | take (id : String)
  | check (t : Nat)
deriving DecidableEq, Repr

def applyOp (today : String) (meds : List Medication) : Op → List Medication
  | .add now name dosage frequency time =>
    (handleAddMedication now name dosage frequency time meds).1
  | .delete id => handleDeleteMedication id meds
  | .take id => handleTakeMedication today id meds
  | .check t => (checkMedications today t meds).1

def runOps (today : String) (ops : List Op) (meds : List Medication) :
    List Medication :=
  ops.foldl (applyOp today) meds

/-- Does the operation's checker time (if it has one) stay at or below `T`? -/
def opTimeLE (T : Nat) : Op → Bool
  | .check t => decide (t ≤ T)
  | _ => true

/-- The claimed `missed` invariant for one medication, evaluated on day
`today` at `T` minutes since midnight. -/
def missedOk (today : String) (T : Nat) (m : Medication) : Bool :=
  !m.missed ||
    (!(m.lastTaken == some today) &&
      match medicationMinutes m.time with
      | some mt => decide (mt ≤ T)
      | none => false)

/-- The claimed `missed` invariant for the whole collection. -/
def collectionInvariant (today : String) (T : Nat)
    (meds : List Medication) : Bool :=
  meds.all (missedOk today T)

/-! ## Concrete instances used to exercise the theorems -/

/-- A medication scheduled for 08:00, never taken, not yet flagged. -/
def wMed : Medication :=
  ⟨"1", "Aspirin", "100mg", "daily", "08:00", none, false⟩

/-- A stored medication whose id is the string `"100"`, so that an add at
`Date.now() = 100` reuses its id. -/
def cMedA : Medication :=
  ⟨"100", "Aspirin", "100mg", "daily", "08:00", none, false⟩

/-- `wMed` after being taken on `1/1/2024`. -/
def wMedTaken : Medication :=
  ⟨"1", "Aspirin", "100mg", "daily", "08:00", some "1/1/2024", false⟩

/-- A medication whose name is a proper substring of another name. -/
def wPillMed : Medication :=
  ⟨"7", "Pill", "1mg", "daily", "08:00", none, false⟩

/-- Banners where the second mentions a different medication (`PillXL`)
whose name contains `Pill`. -/
def wNotes : List String :=
  ["Time to take Pill (1mg)", "Time to take PillXL (2mg)", "Unrelated banner"]

/-! ## Characterizing the checker -/

theorem checkOne_fst (today : String) (t : Nat) (med : Medication) :
    (checkOne today t med).1
      = if dueUnconfirmed today t med then setMissed med else med := by
  simp only [checkOne, dueUnconfirmed, setMissed]
  split <;> rfl

theorem checkOne_snd (today : String) (t : Nat) (med : Medication) :
    (checkOne today t med).2
      = if dueUnconfirmed today t med then some (noteText med) else none := by
  simp only [checkOne, dueUnconfirmed]
  split <;> rfl

theorem checkMedications_fst (today : String) (t : Nat)
    (meds : List Medication) :
    (checkMedications today t meds).1
      = meds.map (fun med =>
          if dueUnconfirmed today t med then setMissed med else med) := by
  induction meds with
  | nil => rfl
  | cons m rest ih =>
    simp_all [checkMedications, checkOne_fst]

theorem checkMedications_snd (today : String) (t : Nat)
    (meds : List Medication) :
    (checkMedications today t meds).2
      = (meds.filter (dueUnconfirmed today t)).map noteText := by
  induction meds with
  | nil => rfl
  | cons m rest ih =>
    by_cases h : dueUnconfirmed today t m = true <;>
      simp_all [checkMedications, checkOne_snd, List.filter_cons]

theorem mem_zip_map_self {α β : Type} (f : α → β) (l : List α) (p : α × β)
    (hp : p ∈ l.zip (l.map f)) : p.2 = f p.1 := by
  induction l with
  | nil => simp at hp
  | cons a t ih =>
    simp only [List.map_cons, List.zip_cons_cons, List.mem_cons] at hp
    rcases hp with h | h
    · subst h; rfl
    · exact ih h

theorem mem_checkMedications_zip (today : String) (t : Nat)
    (meds : List Medication) (p : Medication × Medication)
    (hp : p ∈ meds.zip (checkMedications today t meds).1) :
    p.2 = if dueUnconfirmed today t p.1 then setMissed p.1 else p.1 := by
  rw [checkMedications_fst] at hp
  exact mem_zip_map_self
    (fun med => if dueUnconfirmed today t med then setMissed med else med)
    meds p hp

/-! ## Round-trip of the JSON serialization -/

theorem hexVal_hexDigitChar (n : Nat) (h : n < 16) :
    hexVal (hexDigitChar n) = some n := by
  interval_cases n <;> decide

theorem expectChars_append (pat rest : List Char) :
    expectChars pat (pat ++ rest) = some rest := by
  induction pat with
  | nil => rfl
  | cons p ps ih => simp [expectChars, ih]

theorem expectChars_cons_ne (p c : Char) (ps cs : List Char) (h : c ≠ p) :
    expectChars (p :: ps) (c :: cs) = none := by
  simp [expectChars, h]

theorem parseStringBody_escapeChar (c : Char) (rest : List Char) :
    parseStringBody (escapeChar c ++ rest)
      = consRes c (parseStringBody rest) := by
  by_cases h1 : c = '"'
  · subst h1
    show parseStringBody ('\\' :: '"' :: rest) = consRes '"' (parseStringBody rest)
    conv_lhs => rw [parseStringBody.eq_def]
    simp
  by_cases h2 : c = '\\'
  · subst h2
    show parseStringBody ('\\' :: '\\' :: rest) = consRes '\\' (parseStringBody rest)
    conv_lhs => rw [parseStringBody.eq_def]
    simp
  by_cases h3 : c = '\x08'
  · subst h3
    show parseStringBody ('\\' :: 'b' :: rest) = consRes '\x08' (parseStringBody rest)
    conv_lhs => rw [parseStringBody.eq_def]
    simp
  by_cases h4 : c = '\t'
  · subst h4
    show parseStringBody ('\\' :: 't' :: rest) = consRes '\t' (parseStringBody rest)
    conv_lhs => rw [parseStringBody.eq_def]
    simp
  by_cases h5 : c = '\n'
  · subst h5
    show parseStringBody ('\\' :: 'n' :: rest) = consRes '\n' (parseStringBody rest)
    conv_lhs => rw [parseStringBody.eq_def]
    simp
  by_cases h6 : c = '\x0c'
  · subst h6
    show parseStringBody ('\\' :: 'f' :: rest) = consRes '\x0c' (parseStringBody rest)
    conv_lhs => rw [parseStringBody.eq_def]
    simp
  by_cases h7 : c = '\r'
  · subst h7
    show parseStringBody ('\\' :: 'r' :: rest) = consRes '\r' (parseStringBody rest)
    conv_lhs => rw [parseStringBody.eq_def]
    simp
  by_cases h8 : c.toNat < 32
  · have he : escapeChar c
        = ['\\', 'u', '0', '0', hexDigitChar (c.toNat / 16),
           hexDigitChar (c.toNat % 16)] := by
      simp [escapeChar, h1, h2, h3, h4, h5, h6, h7, h8]
    have e1 : hexVal (hexDigitChar (c.toNat / 16)) = some (c.toNat / 16) :=
      hexVal_hexDigitChar _ (by omega)
    have e2 : hexVal (hexDigitChar (c.toNat % 16)) = some (c.toNat % 16) :=
      hexVal_hexDigitChar _ (by omega)
    have hval : hexVal '0' = some 0 := by decide
    rw [he]
    simp only [List.cons_append, List.nil_append, parseStringBody]
    simp only [e1, e2, hval]
    have hn : c.toNat / 16 * 16 + c.toNat % 16 = c.toNat := by omega
    have hs : ¬(0xD800 ≤ c.toNat ∧ c.toNat < 0xE000) := by omega
    simp only [Nat.zero_mul, Nat.zero_add, Nat.add_zero, Nat.mul_zero]
    simp [hn, hs, Char.ofNat_toNat]
  · have he : escapeChar c = [c] := by
      simp [escapeChar, h1, h2, h3, h4, h5, h6, h7, h8]
    rw [he, List.singleton_append]
    conv_lhs => rw [parseStringBody.eq_def]
    simp [h1, h2, h8]

theorem parseStringBody_flatMap (s rest : List Char) :
    parseStringBody ((s.flatMap escapeChar) ++ ('"' :: rest))
      = some (s, rest) := by
  induction s with
  | nil =>
    show parseStringBody ('"' :: rest) = some ([], rest)
    conv_lhs => rw [parseStringBody.eq_def]
    simp
  | cons c s ih =>
    rw [List.flatMap_cons, List.append_assoc, parseStringBody_escapeChar, ih]
    rfl

theorem parseJsonString_encode (s : String) (rest : List Char) :
    parseJsonString (encodeJsonString s ++ rest) = some (s, rest) := by
  obtain ⟨d⟩ := s
  have h : encodeJsonString ⟨d⟩ ++ rest
      = '"' :: ((d.flatMap escapeChar) ++ ('"' :: rest)) := by
    simp [encodeJsonString, List.append_assoc]
  rw [h]
  simp [parseJsonString, parseStringBody_flatMap]

theorem parseNullableString_encode (v : Option String) (rest : List Char) :
    parseNullableString (encodeNullableString v ++ rest) = some (v, rest) := by
  cases v with
  | none =>
    show parseNullableString ("null".toList ++ rest) = some (none, rest)
    unfold parseNullableString
    rw [expectChars_append]
  | some s =>
    show parseNullableString (encodeJsonString s ++ rest) = some (some s, rest)
    unfold parseNullableString
    have hn : expectChars "null".toList (encodeJsonString s ++ rest) = none := by
      rw [show "null".toList = 'n' :: "ull".toList from rfl,
        show encodeJsonString s ++ rest
            = '"' :: ((s.toList.flatMap escapeChar) ++ ('"' :: rest)) from by
          simp [encodeJsonString, List.append_assoc]]
      exact expectChars_cons_ne _ _ _ _ (by decide)
    rw [hn, parseJsonString_encode]

theorem parseJsonBool_encode (b : Bool) (rest : List Char) :
    parseJsonBool (encodeJsonBool b ++ rest) = some (b, rest) := by
  cases b with
  | true =>
    show parseJsonBool ("true".toList ++ rest) = some (true, rest)
    unfold parseJsonBool
    rw [expectChars_append]
  | false =>
    show parseJsonBool ("false".toList ++ rest) = some (false, rest)
    unfold parseJsonBool
    have hn : expectChars "true".toList ("false".toList ++ rest) = none := by
      rw [show "true".toList = 't' :: "rue".toList from rfl,
        show "false".toList ++ rest = 'f' :: ("alse".toList ++ rest) from rfl]
      exact expectChars_cons_ne _ _ _ _ (by decide)
    rw [hn, expectChars_append]

theorem parseMed_encode (m : Medication) (rest : List Char) :
    parseMed (encodeMed m ++ rest) = some (m, rest) := by
  unfold parseMed encodeMed
  simp only [List.append_assoc, expectChars_append, parseJsonString_encode,
    parseNullableString_encode, parseJsonBool_encode]

theorem encodeMed_head (m : Medication) : ∃ X, encodeMed m = lbrace :: X := by
  unfold encodeMed
  rw [show ("\x7b\"id\":".toList) = lbrace :: "\"id\":".toList from rfl]
  simp only [List.cons_append]
  exact ⟨_, rfl⟩

theorem encodeMedsTail_length (ms : List Medication) :
    ms.length ≤ (encodeMedsTail ms).length := by
  induction ms with
  | nil => simp [encodeMedsTail]
  | cons m ms ih => simp [encodeMedsTail]; omega

theorem parseMedsTail_encode (ms : List Medication) (tail : List Char)
    (fuel : Nat) (h : ms.length ≤ fuel) :
    parseMedsTail fuel (encodeMedsTail ms ++ tail) = some (ms, tail) := by
  induction ms generalizing fuel tail with
  | nil => cases fuel <;> rfl
  | cons m ms ih =>
    cases fuel with
    | zero => simp at h
    | succ fuel =>
      rw [show encodeMedsTail (m :: ms) ++ tail
          = ',' :: (encodeMed m ++ (encodeMedsTail ms ++ tail)) from by
        simp [encodeMedsTail]]
      have h' : ms.length ≤ fuel := by simp at h; omega
      have hih : parseMedsTail fuel (encodeMedsTail ms ++ tail)
          = some (ms, tail) := ih tail fuel h'
      simp only [parseMedsTail, parseMed_encode, hih]

theorem parseMeds_encode (ms : List Medication) (rest : List Char) :
    parseMeds (encodeMeds ms ++ rest) = some (ms, rest) := by
  cases ms with
  | nil =>
    rw [show encodeMeds [] ++ rest = '[' :: (']' :: rest) from rfl]
    have e1 : expectChars ['['] ('[' :: (']' :: rest)) = some (']' :: rest) :=
      rfl
    have e2 : expectChars [']'] (']' :: rest) = some rest := rfl
    simp only [parseMeds, e1, e2]
  | cons m ms =>
    rw [show encodeMeds (m :: ms) ++ rest
        = '[' :: (encodeMed m ++ (encodeMedsTail ms ++ rest)) from by
      simp [encodeMeds]]
    have h2 : expectChars ['[']
        ('[' :: (encodeMed m ++ (encodeMedsTail ms ++ rest)))
        = some (encodeMed m ++ (encodeMedsTail ms ++ rest)) := rfl
    have h3 : expectChars [']']
        (encodeMed m ++ (encodeMedsTail ms ++ rest)) = none := by
      obtain ⟨X, hX⟩ := encodeMed_head m
      rw [hX, List.cons_append]
      exact expectChars_cons_ne _ _ _ _ (by decide)
    have h4 : parseMedsTail (encodeMedsTail ms ++ rest).length
        (encodeMedsTail ms ++ rest) = some (ms, rest) :=
      parseMedsTail_encode ms rest _
        (le_trans (encodeMedsTail_length ms) (by simp))
    simp only [parseMeds, h2, h3, parseMed_encode, h4]

/-! ## The missed invariant along same-day operation sequences -/

theorem applyOp_missedOk (today : String) (T : Nat) (op : Op)
    (meds : List Medication) (hop : opTimeLE T op = true)
    (h : collectionInvariant today T meds = true) :
    collectionInvariant today T (applyOp today meds op) = true := by
  cases op with
  | add now name dosage frequency time =>
    simp only [applyOp, handleAddMedication]
    by_cases hv : (name == "" || dosage == "") = true
    · simp only [if_pos hv]
      exact h
    · simp only [if_neg hv]
      simp only [collectionInvariant, List.all_append] at h ⊢
      simp [h, missedOk]
  | delete id =>
    simp only [applyOp, handleDeleteMedication]
    simp only [collectionInvariant, List.all_eq_true] at h ⊢
    intro m hm
    exact h m (List.mem_of_mem_filter hm)
  | take id =>
    simp only [applyOp, handleTakeMedication]
    simp only [collectionInvariant, List.all_eq_true] at h ⊢
    intro m hm
    rw [List.mem_map] at hm
    obtain ⟨m0, hm0, rfl⟩ := hm
    by_cases hid : (m0.id == id) = true
    · simp [hid, missedOk]
    · simp only [hid, if_false, Bool.false_eq_true]
      exact h m0 hm0
  | check t =>
    have hT : t ≤ T := by simpa [opTimeLE] using hop
    simp only [applyOp, checkMedications_fst]
    simp only [collectionInvariant, List.all_eq_true] at h ⊢
    intro m hm
    rw [List.mem_map] at hm
    obtain ⟨m0, hm0, rfl⟩ := hm
    by_cases hdue : dueUnconfirmed today t m0 = true
    · simp only [hdue, if_true]
      simp only [dueUnconfirmed, Bool.and_eq_true] at hdue
      obtain ⟨⟨hA, hB⟩, _⟩ := hdue
      simp only [missedOk, setMissed, Bool.not_true, Bool.false_or]
      cases hmt : medicationMinutes m0.time with
      | none => rw [hmt] at hA; simp at hA
      | some mt =>
        rw [hmt] at hA
        simp only [decide_eq_true_eq] at hA
        simp only [hB, Bool.true_and]
        simp [decide_eq_true_eq]
        omega
    · simp only [hdue, if_false, Bool.false_eq_true]
      exact h m0 hm0

theorem runOps_missedOk (today : String) (T : Nat) (ops : List Op)
    (meds : List Medication)
    (hops : ∀ op ∈ ops, opTimeLE T op = true)
    (h : collectionInvariant today T meds = true) :
    collectionInvariant today T (runOps today ops meds) = true := by
  induction ops generalizing meds with
  | nil => exact h
  | cons op ops ih =>
    have hstep : runOps today (op :: ops) meds
        = runOps today ops (applyOp today meds op) := rfl
    rw [hstep]
    exact ih (applyOp today meds op)
      (fun o ho => hops o (List.mem_cons_of_mem _ ho))
      (applyOp_missedOk today T op meds (hops op (List.mem_cons_self _ _)) h)

/-! ## The claims -/

/-- C1: for every collection and every caller-supplied time, `checkDue` flips
`missed` to true and emits exactly one notification with text
`"Time to take {name} ({dosage})"` for exactly those medications that are at
or past their scheduled minute, not taken today, and not already flagged
missed; every other medication is returned unchanged and gets no
notification. -/
theorem checkDue_flags_exactly_due (today : String) (t : Nat)
    (meds : List Medication) :
    (checkMedications today t meds).1
        = meds.map (fun med =>
            if dueUnconfirmed today t med then setMissed med else med)
      ∧ (checkMedications today t meds).2
        = (meds.filter (dueUnconfirmed today t)).map noteText :=
  ⟨checkMedications_fst today t meds, checkMedications_snd today t meds⟩

/-- C2 (code bug): an absent key loads the empty collection, but a present
yet unparsable value (here the single character left brace) makes
`JSON.parse` throw inside the `useState` initializer, so process start fails
instead of defaulting to the empty collection. -/
theorem load_unparsable_crashes :
    loadMedications none = Except.ok []
      ∧ loadMedications (some "\x7b")
        = Except.error "SyntaxError: JSON.parse" :=
  ⟨rfl, rfl⟩

/-- C3 (amended): starting from the empty collection, after any sequence of
add, delete, take and checkDue operations all carried out on one calendar
day, and at any current time-of-day at or after every checkDue time of the
sequence, each medication has `missed = true` only if its `lastTaken` is not
that day's date and the current time-of-day is at or after its scheduled
time. -/
theorem missed_invariant_same_day (today : String) (T : Nat) (ops : List Op)
    (hops : ∀ op ∈ ops, opTimeLE T op = true) :
    collectionInvariant today T (runOps today ops []) = true :=
  runOps_missedOk today T ops [] hops rfl

theorem missed_invariant_same_day_witness :
    collectionInvariant "1/1/2024" 600
      (runOps "1/1/2024"
        [Op.add 1 "Aspirin" "100mg" "daily" "08:00", Op.check 540] [])
      = true :=
  missed_invariant_same_day "1/1/2024" 600
    [Op.add 1 "Aspirin" "100mg" "daily" "08:00", Op.check 540] (by decide)

/-- C3 counterexample: a medication flagged by a 09:00 check on `1/1/2024`
keeps `missed = true` at 07:00 of the next day, when the current time-of-day
is before its scheduled 08:00, so the claimed invariant fails at that
current time for this reachable state. -/
theorem missed_invariant_cross_midnight :
    collectionInvariant "1/2/2024" 420
      (runOps "1/1/2024"
        [Op.add 1 "Aspirin" "100mg" "daily" "08:00", Op.check 540] [])
      = false := by decide

/-- C4: running checkDue twice on the same day with non-decreasing times
never re-notifies: the second run emits notifications exactly for the
medications still due-and-unconfirmed after the first run, and every
medication notified (flagged) by the first run is no longer
due-and-unconfirmed at the second. -/
theorem checkDue_no_renotify (today : String) (t1 t2 : Nat)
    (meds : List Medication) (_h : t1 ≤ t2) :
    (checkMedications today t2 (checkMedications today t1 meds).1).2
        = (((checkMedications today t1 meds).1).filter
            (dueUnconfirmed today t2)).map noteText
      ∧ ∀ p ∈ meds.zip (checkMedications today t1 meds).1,
          dueUnconfirmed today t1 p.1 = true →
            dueUnconfirmed today t2 p.2 = false := by
  refine ⟨checkMedications_snd today t2 _, fun p hp hdue => ?_⟩
  have h2 := mem_checkMedications_zip today t1 meds p hp
  rw [h2, if_pos hdue]
  simp [dueUnconfirmed, setMissed]

theorem checkDue_no_renotify_witness :
    dueUnconfirmed "1/1/2024" 600 (setMissed wMed) = false :=
  (checkDue_no_renotify "1/1/2024" 540 600 [wMed] (by decide)).2
    (wMed, setMissed wMed) (by decide) (by decide)

/-- C5: taking a medication and then running checkDue at any time of the
same calendar day leaves that medication's `missed` flag false and emits no
notification for it, since its `lastTaken` equals that day. -/
theorem take_then_checkDue_no_reflag (today : String) (t : Nat) (id : String)
    (meds : List Medication) :
    (∀ m ∈ handleTakeMedication today id meds, m.id = id →
        dueUnconfirmed today t m = false)
      ∧ (∀ m ∈ (checkMedications today t
            (handleTakeMedication today id meds)).1,
          m.id = id → m.missed = false)
      ∧ (checkMedications today t (handleTakeMedication today id meds)).2
          = ((handleTakeMedication today id meds).filter
              (dueUnconfirmed today t)).map noteText := by
  have key : ∀ m ∈ handleTakeMedication today id meds, m.id = id →
      m.lastTaken = some today ∧ m.missed = false := by
    intro m hm hid
    simp only [handleTakeMedication, List.mem_map] at hm
    obtain ⟨m0, hm0, rfl⟩ := hm
    by_cases h0 : (m0.id == id) = true
    · rw [if_pos h0]
      exact ⟨rfl, rfl⟩
    · rw [if_neg h0] at hid
      exact absurd hid (by simpa using h0)
  refine ⟨?_, ?_, checkMedications_snd today t _⟩
  · intro m hm hid
    obtain ⟨hlt, _⟩ := key m hm hid
    simp [dueUnconfirmed, hlt]
  · intro m hm hid
    rw [checkMedications_fst, List.mem_map] at hm
    obtain ⟨m1, hm1, rfl⟩ := hm
    by_cases hdue : dueUnconfirmed today t m1 = true
    · rw [if_pos hdue] at hid ⊢
      have hid1 : m1.id = id := hid
      obtain ⟨hlt, _⟩ := key m1 hm1 hid1
      rw [show dueUnconfirmed today t m1 = false from by
        simp [dueUnconfirmed, hlt]] at hdue
      exact absurd hdue (by simp)
    · rw [if_neg hdue] at hid ⊢
      exact (key m1 hm1 hid).2

theorem take_then_checkDue_no_reflag_witness :
    dueUnconfirmed "1/1/2024" 540 wMedTaken = false :=
  (take_then_checkDue_no_reflag "1/1/2024" 540 "1" [wMed]).1 wMedTaken
    (by decide) (by decide)

/-- C6 (amended): with non-empty name and dosage, addMedication appends
exactly one entry at the end with `lastTaken = null` and `missed = false`
and leaves every existing entry unchanged; and, provided no existing
medication already carries the decimal string of the creation timestamp as
its id, the new id differs from every existing id. -/
theorem addMedication_appends_fresh (now : Nat)
    (name dosage frequency time : String) (meds : List Medication)
    (hname : name ≠ "") (hdosage : dosage ≠ "") :
    (handleAddMedication now name dosage frequency time meds).1
        = meds ++ [⟨toString now, name, dosage, frequency, time, none, false⟩]
      ∧ (handleAddMedication now name dosage frequency time meds).2 = none
      ∧ ((∀ m ∈ meds, m.id ≠ toString now) →
          ∀ m ∈ meds,
            m.id ≠ (⟨toString now, name, dosage, frequency, time, none,
              false⟩ : Medication).id) := by
  have hv : (name == "" || dosage == "") = false := by
    simp [hname, hdosage]
  refine ⟨?_, ?_, fun hfresh => hfresh⟩ <;> simp [handleAddMedication, hv]

theorem addMedication_appends_fresh_witness :
    (handleAddMedication 2 "Ibuprofen" "200mg" "daily" "09:00" [wMed]).1
        = [wMed] ++ [⟨toString 2, "Ibuprofen", "200mg", "daily", "09:00",
            none, false⟩]
      ∧ (handleAddMedication 2 "Ibuprofen" "200mg" "daily" "09:00"
          [wMed]).2 = none
      ∧ ((∀ m ∈ [wMed], m.id ≠ toString 2) →
          ∀ m ∈ [wMed],
            m.id ≠ (⟨toString 2, "Ibuprofen", "200mg", "daily", "09:00",
              none, false⟩ : Medication).id) :=
  addMedication_appends_fresh 2 "Ibuprofen" "200mg" "daily" "09:00" [wMed]
    (by decide) (by decide)

/-- C6 counterexample: adding at `Date.now() = 100` with valid fields while
a stored medication already has id `"100"` passes validation yet produces a
duplicate id, refuting the unconditional freshness claim. -/
theorem addMedication_id_clash :
    (handleAddMedication 100 "Ibuprofen" "200mg" "daily" "09:00"
        [cMedA]).2 = none
      ∧ ((handleAddMedication 100 "Ibuprofen" "200mg" "daily" "09:00"
          [cMedA]).1.map Medication.id) = ["100", "100"] :=
  ⟨rfl, rfl⟩

/-- C7: adding with an empty name or an empty dosage fails with the
validation error and returns the collection exactly as it was. -/
theorem addMedication_rejects_empty (now : Nat)
    (name dosage frequency time : String) (meds : List Medication)
    (h : name = "" ∨ dosage = "") :
    handleAddMedication now name dosage frequency time meds
      = (meds, some ValidationError.emptyRequiredField) := by
  rcases h with h | h <;> subst h <;> simp [handleAddMedication]

theorem addMedication_rejects_empty_witness :
    handleAddMedication 1 "" "200mg" "daily" "09:00" [wMed]
      = ([wMed], some ValidationError.emptyRequiredField) :=
  addMedication_rejects_empty 1 "" "200mg" "daily" "09:00" [wMed] (Or.inl rfl)

/-- C8: serializing any collection and deserializing the result yields an
equal collection: same ids, same field values, same order. -/
theorem persistence_roundtrip (meds : List Medication) :
    deserializeMedications (serializeMedications meds) = some meds := by
  have h2 : parseMeds (encodeMeds meds) = some (meds, []) := by
    have h := parseMeds_encode meds []
    rwa [List.append_nil] at h
  have h3 : (serializeMedications meds).toList = encodeMeds meds := rfl
  simp only [deserializeMedications, h3, h2]

/-- C9: when the id is present, takeMedication removes exactly those pending
notifications whose text contains the medication's name as a substring (all
of them, including banners of differently-named medications whose text
contains the name) and keeps every other notification. -/
theorem takeMedication_removes_name_notifications (meds : List Medication)
    (id : String) (notes : List String) (med : Medication)
    (hfind : meds.find? (fun m => m.id == id) = some med) :
    removeTakenNotifications meds id notes
        = notes.filter (fun note => !(strIncludes note med.name))
      ∧ ∀ note, note ∈ removeTakenNotifications meds id notes
          ↔ (note ∈ notes ∧ strIncludes note med.name = false) := by
  have h1 : removeTakenNotifications meds id notes
      = notes.filter (fun note => !(strIncludes note med.name)) := by
    simp only [removeTakenNotifications, hfind]
  refine ⟨h1, fun note => ?_⟩
  rw [h1, List.mem_filter]
  simp

theorem takeMedication_removes_name_notifications_witness :
    removeTakenNotifications [wPillMed] "7" wNotes
        = wNotes.filter (fun note => !(strIncludes note "Pill"))
      ∧ ∀ note, note ∈ removeTakenNotifications [wPillMed] "7" wNotes
          ↔ (note ∈ wNotes ∧ strIncludes note "Pill" = false) :=
  takeMedication_removes_name_notifications [wPillMed] "7" wNotes wPillMed
    (by decide)

/-- C10: checkDue returns a collection of the same length and order, leaves
`id`, `name`, `dosage`, `frequency`, `time` and `lastTaken` of every
medication unchanged, and never turns a true `missed` flag false. -/
theorem checkDue_frame (today : String) (t : Nat) (meds : List Medication) :
    (checkMedications today t meds).1.length = meds.length
      ∧ ∀ p ∈ meds.zip (checkMedications today t meds).1,
          p.2.id = p.1.id ∧ p.2.name = p.1.name ∧ p.2.dosage = p.1.dosage
            ∧ p.2.frequency = p.1.frequency ∧ p.2.time = p.1.time
            ∧ p.2.lastTaken = p.1.lastTaken
            ∧ (p.1.missed = true → p.2.missed = true) := by
  refine ⟨by rw [checkMedications_fst]; simp, fun p hp => ?_⟩
  have h2 := mem_checkMedications_zip today t meds p hp
  by_cases hdue : dueUnconfirmed today t p.1 = true
  · rw [h2, if_pos hdue]
    exact ⟨rfl, rfl, rfl, rfl, rfl, rfl, fun _ => rfl⟩
  · rw [h2, if_neg hdue]
    exact ⟨rfl, rfl, rfl, rfl, rfl, rfl, fun hh => hh⟩

theorem checkDue_frame_witness :
    (setMissed wMed).id = wMed.id ∧ (setMissed wMed).name = wMed.name
      ∧ (setMissed wMed).dosage = wMed.dosage
      ∧ (setMissed wMed).frequency = wMed.frequency
      ∧ (setMissed wMed).time = wMed.time
      ∧ (setMissed wMed).lastTaken = wMed.lastTaken
      ∧ (wMed.missed = true → (setMissed wMed).missed = true) :=
  (checkDue_frame "1/1/2024" 540 [wMed]).2 (wMed, setMissed wMed) (by decide)

end MediReminder
